import Mathlib

/-
Verification development for the tarot repository's vector-index pipeline.

The two scripts under scrutiny are `scripts/training/buildVectorIndex.py`
(the index builder) and `scripts/training/testIndex.py` (the index query).
Both are linear scripts; we embed them as pure functions over an explicit
description of their file-system environment:

* an image file's decode-and-embed step (PIL + CLIP, an external black box)
  is modelled by an `Option (List Rat)` attached to each directory entry:
  `some v` is the (already normalized) embedding the model returned,
  `none` means the `try` body raised and the file is skipped;
* floating-point vectors are modelled by rational vectors (`List Rat`),
  exact arithmetic standing in for float arithmetic;
* the FAISS flat inner-product index is modelled from its documented
  semantics: exact search, results in descending inner-product order, and
  when `k` exceeds the number of stored vectors the result rows are padded
  with label `-1` and distance `-FLT_MAX`.  Ties are modelled as returned
  in ascending row order;
* `os.listdir` results are an input (Python documents the order as
  arbitrary), and the scripts' writes are returned as `Option` fields of an
  output record (`none` = that file was never written).
-/

namespace Tarot

/-- Vec is the scalar model of an embedding row: exact rationals stand in for
the scripts' float32 values. -/
abbrev Vec := List ℚ

/-- cardNameOf models `img_file.split('.')[0].replace('_',' ').replace('-',' ')`
from buildVectorIndex.py line 75: the characters before the first dot, with
every underscore and hyphen replaced by a space. -/
def cardNameOf (filename : String) : String :=
  String.mk (((filename.toList.takeWhile (fun c => c ≠ '.')).map
    (fun c => if c = '_' then ' ' else c)).map
    (fun c => if c = '-' then ' ' else c))

/-- strEndsWith models Python's `str.endswith` for a single suffix: the last
characters of `s` are exactly `suffix`. -/
def strEndsWith (s suffix : String) : Bool :=
  decide (s.toList.drop (s.toList.length - suffix.toList.length) = suffix.toList)

/-- is_image_file models the filter on buildVectorIndex.py line 48:
`f.endswith(('.jpg', '.jpeg', '.png'))`. -/
def is_image_file (f : String) : Bool :=
  strEndsWith f ".jpg" || strEndsWith f ".jpeg" || strEndsWith f ".png"

/-- MetaEntry is one element of the metadata list written by
buildVectorIndex.py lines 76-80: `{id, filename, card_name}`. -/
structure MetaEntry where
  id : Nat
  filename : String
  card_name : String
deriving Repr, DecidableEq

/-- SrcFile is one entry of the source-directory listing: its filename plus
the outcome of the decode-and-embed black box (`none` = the `try` body of
buildVectorIndex.py lines 62-80 raised for this file, so it is skipped). -/
structure SrcFile where
  name : String
  decoded : Option Vec
deriving Repr, DecidableEq

/-- embedLoop models the loop of buildVectorIndex.py lines 60-82:
`for idx, img_file in enumerate(image_files)`.  The first component
accumulates, per successful file, the shape-(1,d) feature array the model
returns (a one-row matrix, `[v]`); the second accumulates the metadata
records, whose `id` is the enumeration counter `idx` -- the position in the
full listing, not the position among successes. -/
def embedLoop : Nat → List SrcFile → List (List Vec) × List MetaEntry
  | _, [] => ([], [])
  | idx, f :: rest =>
    let tail := embedLoop (idx + 1) rest
    match f.decoded with
    | some v => ([v] :: tail.1, ⟨idx, f.name, cardNameOf f.name⟩ :: tail.2)
    | none => tail

/-- vstack models `np.vstack(embeddings)` (buildVectorIndex.py line 90): the
accumulated one-row matrices are stacked into the index's row list. -/
def vstack (embs : List (List Vec)) : List Vec := embs.flatten

/-- JVal is a minimal JSON value model, enough to state the shape of the
`embedding` field the export writes. -/
inductive JVal where
  | num : ℚ → JVal
  | arr : List JVal → JVal
deriving Repr

/-- embJson models `embeddings[i].tolist()` (buildVectorIndex.py line 140):
a numpy array serialized as nested JSON arrays of numbers. -/
def embJson (m : List Vec) : JVal :=
  JVal.arr (m.map (fun row => JVal.arr (row.map JVal.num)))

/-- isFlatNumList holds exactly when a JSON value is a flat array of numbers
(no nesting), the shape the spec asserts for the `embedding` field. -/
def isFlatNumList : JVal → Bool
  | JVal.arr xs => xs.all (fun v => match v with | JVal.num _ => true | _ => false)
  | _ => false

/-- CardEntry is one value of the export's `cards` mapping
(buildVectorIndex.py lines 142-145): `{embedding: ..., count: 1}`. -/
structure CardEntry where
  embedding : JVal
  count : Nat
deriving Repr

/-- DeckEntry is one value of the export's `deckStyles` mapping
(buildVectorIndex.py lines 147-149): `{cards: {...}}`. -/
structure DeckEntry where
  cards : List (String × CardEntry)
deriving Repr

/-- ExportDoc is the export document: its `deckStyles` object, modelled as an
association list in insertion order (Python dict semantics).  A document
missing the key is modelled by the empty list, matching lines 126-127. -/
structure ExportDoc where
  deckStyles : List (String × DeckEntry)
deriving Repr

/-- setKey models Python dict assignment `d[k] = v` on an insertion-ordered
association list: an existing key keeps its position and gets the new value,
a new key is appended at the end. -/
def setKey {α : Type} (k : String) (v : α) : List (String × α) → List (String × α)
  | [] => [(k, v)]
  | (k', v') :: rest => if k' = k then (k', v) :: rest else (k', v') :: setKey k v rest

/-- lookupKey models Python dict lookup `d.get(k)` on an association list. -/
def lookupKey {α : Type} (k : String) : List (String × α) → Option α
  | [] => none
  | (k', v') :: rest => if k' = k then some v' else lookupKey k rest

/-- deck_id_map models `deck_id_map.get(args.deck, args.deck)` with the fixed
table of buildVectorIndex.py lines 130-135. -/
def deck_id_map (deck : String) : String :=
  if deck = "rws" then "rws-1909"
  else if deck = "thoth" then "thoth"
  else if deck = "marseille" then "marseille"
  else deck

/-- cards_data models the loop of buildVectorIndex.py lines 137-145: for each
(embedding, metadata) pair in order, assign under the derived card name the
entry `{embedding: embeddings[i].tolist(), count: 1}`; a repeated card name
overwrites the earlier assignment (dict semantics). -/
def cards_data (embs : List (List Vec)) (md : List MetaEntry) :
    List (String × CardEntry) :=
  (embs.zip md).foldl
    (fun acc p => setKey p.2.card_name ⟨embJson p.1, 1⟩ acc) []

/-- mergeExport models buildVectorIndex.py lines 117-149: start from the
existing document when it was read successfully (else from the empty
document), then assign this deck's entry under its mapped id inside
`deckStyles`, leaving everything else in place. -/
def mergeExport (existing : Option ExportDoc) (deck : String)
    (cd : List (String × CardEntry)) : ExportDoc :=
  let doc := existing.getD ⟨[]⟩
  ⟨setKey (deck_id_map deck) ⟨cd⟩ doc.deckStyles⟩

/-- BuildInput is the environment of one `build_index` run: the deck name,
whether the source directory exists, the directory listing (with each file's
decode outcome), the optional `--export_json` argument, and the parse result
of any existing export file (`none` = missing or malformed, both of which
lines 118-124 turn into the empty document). -/
structure BuildInput where
  deck : String
  dirExists : Bool
  listing : List SrcFile
  exportJson : Option String
  existingExport : Option ExportDoc

/-- BuildOutput records what one `build_index` run does to the outside world:
the abort message it printed (if it returned early), the process exit status,
and the three files it may write (`none` = not written). -/
structure BuildOutput where
  abortMsg : Option String
  exitCode : Nat
  indexFile : Option (List Vec)
  metadataFile : Option (List MetaEntry)
  exportFile : Option ExportDoc

/-- image_dir models `os.path.join("data", "raw_images", args.deck)`. -/
def image_dir (deck : String) : String := "data/raw_images/" ++ deck

/-- image_files models buildVectorIndex.py line 48: the directory listing
filtered to recognized image extensions. -/
def image_files (inp : BuildInput) : List SrcFile :=
  inp.listing.filter (fun f => is_image_file f.name)

/-- exportOn models the guard `if args.export_json:` (line 113): the argument
was supplied and is a non-empty (truthy) string. -/
def exportOn (inp : BuildInput) : Bool :=
  match inp.exportJson with
  | none => false
  | some p => decide (p.toList ≠ [])

/-- build_index embeds `build_index` of buildVectorIndex.py.  Every early
`return` leaves all three file fields `none`; the script never calls
`sys.exit`, so the process exit status is 0 on every path. -/
def build_index (inp : BuildInput) : BuildOutput :=
  if ¬ inp.dirExists then
    { abortMsg := some ("Error: Image directory " ++ image_dir inp.deck ++ " not found."),
      exitCode := 0, indexFile := none, metadataFile := none, exportFile := none }
  else if image_files inp = [] then
    { abortMsg := some "No images found.", exitCode := 0,
      indexFile := none, metadataFile := none, exportFile := none }
  else
    let em := embedLoop 0 (image_files inp)
    if em.1 = [] then
      { abortMsg := some "No embeddings generated.", exitCode := 0,
        indexFile := none, metadataFile := none, exportFile := none }
    else
      { abortMsg := none, exitCode := 0,
        indexFile := some (vstack em.1),
        metadataFile := some em.2,
        exportFile :=
          if exportOn inp then
            some (mergeExport inp.existingExport inp.deck (cards_data em.1 em.2))
          else none }

/-- dot is the inner product of two rational vectors, the exact-arithmetic
model of the FAISS inner-product metric on two stored/query rows. -/
def dot (u v : Vec) : ℚ := (List.zipWith (· * ·) u v).sum

/-- scoreRows pairs every stored row, by ascending row number starting at the
given offset, with its inner product against the query vector. -/
def scoreRows (q : Vec) : Nat → List Vec → List (Nat × ℚ)
  | _, [] => []
  | i, r :: rs => (i, dot r q) :: scoreRows q (i + 1) rs

/-- insertDesc inserts a scored row into a list kept in descending score
order; on a tie the inserted element goes first. -/
def insertDesc (x : Nat × ℚ) : List (Nat × ℚ) → List (Nat × ℚ)
  | [] => [x]
  | y :: ys => if y.2 ≤ x.2 then x :: y :: ys else y :: insertDesc x ys

/-- sortDesc sorts scored rows into descending score order; rows with equal
scores come out in ascending row order (the earlier row is inserted later
and placed in front of its equals). -/
def sortDesc : List (Nat × ℚ) → List (Nat × ℚ)
  | [] => []
  | x :: xs => insertDesc x (sortDesc xs)

/-- faissNegInf is the distance FAISS reports for padded result slots:
the exact value of -FLT_MAX. -/
def faissNegInf : ℚ := -340282346638528859811704183484516925440

/-- searchIP models `index.search(q, k)` on a flat inner-product index, from
the documented FAISS semantics: the stored rows ranked by descending inner
product with the query, truncated to `k`, and -- when fewer than `k` rows are
stored -- padded to length `k` with label `-1` and distance -FLT_MAX. -/
def searchIP (rows : List Vec) (q : Vec) (k : Nat) : List (ℤ × ℚ) :=
  ((sortDesc (scoreRows q 0 rows)).take k).map (fun p => ((p.1 : ℤ), p.2))
    ++ List.replicate (k - rows.length) ((-1 : ℤ), faissNegInf)

/-- pyGet models Python list indexing `l[i]`: a nonnegative index must be
below the length, a negative index counts from the end; `none` models an
IndexError. -/
def pyGet {α : Type} (l : List α) (i : ℤ) : Option α :=
  if 0 ≤ i then l.get? i.toNat
  else if (-i).toNat ≤ l.length then l.get? (l.length - (-i).toNat)
  else none

/-- RLine is one printed result of testIndex.py lines 69-77: either a card
line (rank, card name, score, filename) or an `Unknown Index` line. -/
inductive RLine where
  | card (rank : Nat) (card_name : String) (score : ℚ) (filename : String)
  | unknown (rank : Nat) (idx : ℤ)
deriving Repr, DecidableEq

/-- renderLine models one iteration of the loop at testIndex.py lines 69-77:
the guard is `idx < len(metadata)` only (no lower bound), and the lookup
`metadata[idx]` uses Python indexing, so a negative `idx` counts from the
end of the list; `none` models an uncaught IndexError. -/
def renderLine (md : List MetaEntry) (rank : Nat) (idx : ℤ) (score : ℚ) :
    Option RLine :=
  if idx < (md.length : ℤ) then
    match pyGet md idx with
    | some ci => some (RLine.card rank ci.card_name score ci.filename)
    | none => none
  else some (RLine.unknown rank idx)

/-- renderLoop models `for i in range(k)` over the search result rows, the
printed rank being the loop counter plus one. -/
def renderLoop (md : List MetaEntry) : Nat → List (ℤ × ℚ) → List (Option RLine)
  | _, [] => []
  | i, (idx, s) :: rest => renderLine md (i + 1) idx s :: renderLoop md (i + 1) rest

/-- QueryInput is the environment of one `test_index` run: the deck name,
whether the two artifact files exist, their parsed contents, and the
normalized embedding of the text query (the CLIP text tower is a black
box). -/
structure QueryInput where
  deck : String
  indexExists : Bool
  metadataExists : Bool
  indexRows : List Vec
  metadata : List MetaEntry
  queryVec : Vec

/-- QueryOutput records what one `test_index` run prints: the abort message
of the missing-file path, the process exit status (0 on normal return -- the
script never calls `sys.exit` -- and 1 when an iteration raises IndexError),
and the rendered result lines. -/
structure QueryOutput where
  abortMsg : Option String
  exitCode : Nat
  results : List (Option RLine)

/-- test_index embeds `test_index` of testIndex.py with its fixed `k = 5`
(line 65). -/
def test_index (inp : QueryInput) : QueryOutput :=
  if !inp.indexExists || !inp.metadataExists then
    { abortMsg := some ("Error: Index or metadata not found in data/indices/" ++ inp.deck),
      exitCode := 0, results := [] }
  else
    let res := renderLoop inp.metadata 0 (searchIP inp.indexRows inp.queryVec 5)
    { abortMsg := none,
      exitCode := if res.any (fun r => r.isNone) then 1 else 0,
      results := res }

/-! Helper lemmas about the association-list model of Python dicts. -/

lemma lookupKey_setKey_self {α : Type} (k : String) (v : α) (l : List (String × α)) :
    lookupKey k (setKey k v l) = some v := by
  induction l with
  | nil => simp [setKey, lookupKey]
  | cons p rest ih =>
    obtain ⟨a, b⟩ := p
    by_cases h : a = k
    · rw [setKey, if_pos h, lookupKey, if_pos h]
    · rw [setKey, if_neg h, lookupKey, if_neg h]
      exact ih

lemma lookupKey_setKey_ne {α : Type} (k k' : String) (v : α) (l : List (String × α))
    (h : k' ≠ k) : lookupKey k' (setKey k v l) = lookupKey k' l := by
  induction l with
  | nil =>
    rw [setKey, lookupKey, lookupKey, if_neg, lookupKey]
    intro hk
    exact h hk.symm
  | cons p rest ih =>
    obtain ⟨a, b⟩ := p
    by_cases ha : a = k
    · have hak' : ¬ a = k' := fun hk => h (hk ▸ ha)
      rw [setKey, if_pos ha, lookupKey, if_neg hak', lookupKey, if_neg hak']
    · rw [setKey, if_neg ha, lookupKey, lookupKey]
      by_cases ha' : a = k'
      · rw [if_pos ha', if_pos ha']
      · rw [if_neg ha', if_neg ha']
        exact ih

lemma mem_setKey {α : Type} (y : String × α) (k : String) (v : α)
    (l : List (String × α)) (hy : y ∈ setKey k v l) : y = (k, v) ∨ y ∈ l := by
  induction l with
  | nil =>
    rw [setKey] at hy
    left
    exact List.mem_singleton.mp hy
  | cons p rest ih =>
    obtain ⟨a, b⟩ := p
    by_cases ha : a = k
    · rw [setKey, if_pos ha] at hy
      rcases List.mem_cons.mp hy with h | h
      · left
        rw [h, ha]
      · right
        exact List.mem_cons_of_mem _ h
    · rw [setKey, if_neg ha] at hy
      rcases List.mem_cons.mp hy with h | h
      · right
        exact h ▸ List.mem_cons_self _ _
      · rcases ih h with h' | h'
        · left
          exact h'
        · right
          exact List.mem_cons_of_mem _ h'

lemma lookupKey_mem {α : Type} (k : String) (l : List (String × α)) (v : α)
    (h : lookupKey k l = some v) : (k, v) ∈ l := by
  induction l with
  | nil => rw [lookupKey] at h; exact absurd h (by simp)
  | cons p rest ih =>
    obtain ⟨a, b⟩ := p
    by_cases ha : a = k
    · rw [lookupKey, if_pos ha] at h
      subst ha
      injection h with h'
      subst h'
      exact List.mem_cons_self _ _
    · rw [lookupKey, if_neg ha] at h
      exact List.mem_cons_of_mem _ (ih h)

lemma mem_map_fst_setKey {α : Type} (x k : String) (v : α) (l : List (String × α)) :
    x ∈ (setKey k v l).map Prod.fst ↔ x = k ∨ x ∈ l.map Prod.fst := by
  induction l with
  | nil => simp [setKey]
  | cons p rest ih =>
    obtain ⟨a, b⟩ := p
    by_cases ha : a = k
    · rw [setKey, if_pos ha]
      subst ha
      simp only [List.map_cons, List.mem_cons]
      tauto
    · rw [setKey, if_neg ha]
      simp only [List.map_cons, List.mem_cons, ih]
      tauto

lemma nodup_map_fst_setKey {α : Type} (k : String) (v : α) (l : List (String × α))
    (h : (l.map Prod.fst).Nodup) : ((setKey k v l).map Prod.fst).Nodup := by
  induction l with
  | nil => simp [setKey]
  | cons p rest ih =>
    obtain ⟨a, b⟩ := p
    simp only [List.map_cons, List.nodup_cons] at h
    by_cases ha : a = k
    · rw [setKey, if_pos ha]
      simp only [List.map_cons, List.nodup_cons]
      exact h
    · rw [setKey, if_neg ha]
      simp only [List.map_cons, List.nodup_cons]
      constructor
      · intro hmem
        rcases (mem_map_fst_setKey a k v rest).mp hmem with h' | h'
        · exact ha h'
        · exact h.1 h'
      · exact ih h.2


/-! Helper lemmas about the embedding loop. -/

lemma embedLoop_all_none (n : Nat) (fs : List SrcFile)
    (h : ∀ f ∈ fs, f.decoded = none) : embedLoop n fs = ([], []) := by
  induction fs generalizing n with
  | nil => rfl
  | cons f rest ih =>
    have hf : f.decoded = none := h f (List.mem_cons_self f rest)
    rw [embedLoop]
    simp only [hf]
    exact ih (n + 1) (fun g hg => h g (List.mem_cons_of_mem f hg))

lemma embedLoop_snd_length (n : Nat) (fs : List SrcFile) :
    (embedLoop n fs).2.length = (fs.filter (fun f => f.decoded.isSome)).length := by
  induction fs generalizing n with
  | nil => rfl
  | cons f rest ih =>
    rw [embedLoop]
    cases hf : f.decoded with
    | some v => simp [List.filter_cons, hf, ih (n + 1)]
    | none => simp [List.filter_cons, hf, ih (n + 1)]

lemma embedLoop_fst_shape (n : Nat) (fs : List SrcFile) :
    ∀ e ∈ (embedLoop n fs).1, ∃ v, e = [v] := by
  induction fs generalizing n with
  | nil => intro e he; simp [embedLoop] at he
  | cons f rest ih =>
    intro e he
    rw [embedLoop] at he
    cases hf : f.decoded with
    | some v =>
      simp only [hf] at he
      rcases List.mem_cons.mp he with h | h
      · exact ⟨v, h⟩
      · exact ih (n + 1) e h
    | none =>
      simp only [hf] at he
      exact ih (n + 1) e he

lemma vstack_embedLoop_length (n : Nat) (fs : List SrcFile) :
    (vstack (embedLoop n fs).1).length = (embedLoop n fs).2.length := by
  induction fs generalizing n with
  | nil => rfl
  | cons f rest ih =>
    rw [embedLoop]
    cases hf : f.decoded with
    | some v => simp [vstack, List.flatten, hf, ← ih (n + 1), vstack]
    | none => simp only [hf]; exact ih (n + 1)

lemma embedLoop_row (n : Nat) (fs : List SrcFile) (i : Nat) (m : MetaEntry)
    (hm : (embedLoop n fs).2.get? i = some m) :
    ∃ f ∈ fs, f.name = m.filename ∧
      (vstack (embedLoop n fs).1).get? i = f.decoded ∧ f.decoded.isSome := by
  induction fs generalizing n i with
  | nil => simp [embedLoop] at hm
  | cons f rest ih =>
    rw [embedLoop] at hm ⊢
    cases hf : f.decoded with
    | some v =>
      simp only [hf] at hm ⊢
      cases i with
      | zero =>
        simp only [List.get?] at hm
        refine ⟨f, List.mem_cons_self f rest, ?_, ?_, ?_⟩
        · cases hm; rfl
        · simp [vstack, hf]
        · simp [hf]
      | succ i' =>
        simp only [List.get?] at hm
        obtain ⟨g, hg, h1, h2, h3⟩ := ih (n + 1) i' hm
        refine ⟨g, List.mem_cons_of_mem f hg, h1, ?_, h3⟩
        simpa [vstack] using h2
    | none =>
      simp only [hf] at hm ⊢
      obtain ⟨g, hg, h1, h2, h3⟩ := ih (n + 1) i hm
      exact ⟨g, List.mem_cons_of_mem f hg, h1, h2, h3⟩

lemma embedLoop_ids (n : Nat) (fs : List SrcFile)
    (hall : ∀ f ∈ fs, f.decoded.isSome) (i : Nat) (m : MetaEntry)
    (hm : (embedLoop n fs).2.get? i = some m) : m.id = n + i := by
  induction fs generalizing n i with
  | nil => simp [embedLoop] at hm
  | cons f rest ih =>
    rw [embedLoop] at hm
    cases hf : f.decoded with
    | some v =>
      simp only [hf] at hm
      cases i with
      | zero => simp only [List.get?] at hm; cases hm; rfl
      | succ i' =>
        simp only [List.get?] at hm
        have := ih (n + 1) (fun g hg => hall g (List.mem_cons_of_mem f hg)) i' hm
        omega
    | none =>
      have := hall f (List.mem_cons_self f rest)
      rw [hf] at this
      simp at this

/-- build_index_cases: every run either writes nothing (the three early
returns) or takes the success path, whose outputs are spelled out. -/
lemma build_index_cases (inp : BuildInput) :
    ((build_index inp).indexFile = none ∧ (build_index inp).metadataFile = none
      ∧ (build_index inp).exportFile = none)
  ∨ (build_index inp =
      { abortMsg := none,
        exitCode := 0,
        indexFile := some (vstack (embedLoop 0 (image_files inp)).1),
        metadataFile := some (embedLoop 0 (image_files inp)).2,
        exportFile :=
          if exportOn inp then
            some (mergeExport inp.existingExport inp.deck
              (cards_data (embedLoop 0 (image_files inp)).1 (embedLoop 0 (image_files inp)).2))
          else none }) := by
  rw [build_index]
  by_cases h1 : inp.dirExists
  · by_cases h2 : image_files inp = []
    · simp [h1, h2]
    · by_cases h3 : (embedLoop 0 (image_files inp)).1 = []
      · simp [h1, h2, h3]
      · right
        simp [h1, h2, h3]
  · simp [h1]

/-! Claim C1. -/

/-- c1In: a build whose first listed image fails to decode and whose second
succeeds. -/
def c1In : BuildInput :=
  { deck := "rws", dirExists := true,
    listing := [⟨"a.jpg", none⟩, ⟨"b.jpg", some [1, 0]⟩],
    exportJson := none, existingExport := none }

/-- C1 counterexample: with a decode failure at listing position 0, the
metadata entry at list position 0 has id 1, not 0 -- the ids skip the failed
position, so position-i-has-id-i and gap-freeness both fail. -/
theorem C1_counterexample :
    (build_index c1In).metadataFile = some [⟨1, "b.jpg", "b"⟩]
  ∧ ((build_index c1In).metadataFile.getD []).map MetaEntry.id ≠ [0] := by
  decide

/-- C1 (amended): after every successful build the persisted index and
metadata are parallel arrays -- row count equals metadata length, and row i
is exactly the embedding of the file named by metadata entry i.  The id
field, however, records the file's position in the filtered directory
listing, so ids equal list positions only when every listed image decodes;
with failures the ids skip the failed positions. -/
theorem C1_amended (inp : BuildInput) (rows : List Vec) (md : List MetaEntry)
    (hr : (build_index inp).indexFile = some rows)
    (hm : (build_index inp).metadataFile = some md) :
    rows.length = md.length
  ∧ (∀ i m, md.get? i = some m →
      ∃ f ∈ image_files inp, f.name = m.filename ∧ rows.get? i = f.decoded
        ∧ f.decoded.isSome)
  ∧ ((∀ f ∈ image_files inp, f.decoded.isSome) →
      ∀ i m, md.get? i = some m → m.id = i) := by
  rcases build_index_cases inp with ⟨h1, h2, _⟩ | hsucc
  · rw [h1] at hr
    cases hr
  · rw [hsucc] at hr hm
    simp only [Option.some.injEq] at hr hm
    subst hr
    subst hm
    refine ⟨vstack_embedLoop_length 0 _, ?_, ?_⟩
    · intro i m hmi
      obtain ⟨f, hf, h1, h2, h3⟩ := embedLoop_row 0 _ i m hmi
      exact ⟨f, hf, h1, h2, h3⟩
    · intro hall i m hmi
      simpa using embedLoop_ids 0 _ hall i m hmi

/-- C1 witness: the amended theorem applied to a concrete two-image build
with no decode failures. -/
theorem C1_witness :
    ((2 : Nat) = 2)
  ∧ ∀ i m, [(⟨0, "a.jpg", "a"⟩ : MetaEntry), ⟨1, "b.jpg", "b"⟩].get? i = some m → m.id = i := by
  have h := C1_amended
    { deck := "rws", dirExists := true,
      listing := [⟨"a.jpg", some [1, 0]⟩, ⟨"b.jpg", some [0, 1]⟩],
      exportJson := none, existingExport := none }
    [[1, 0], [0, 1]] [⟨0, "a.jpg", "a"⟩, ⟨1, "b.jpg", "b"⟩] rfl rfl
  exact ⟨rfl, h.2.2 (by decide)⟩

/-! Claim C4. -/

/-- c4Claimed: the metadata list the spec scenario expects. -/
def c4Claimed : List MetaEntry :=
  [⟨0, "01_fool.jpg", "01 fool"⟩, ⟨1, "02_magician.jpg", "02 magician"⟩,
   ⟨2, "03_priestess.jpg", "03 priestess"⟩]

/-- c4Listing: the three scenario files, all decodable, as enumerated in
ascending name order. -/
def c4Listing (v1 v2 v3 : Vec) : BuildInput :=
  { deck := "rws", dirExists := true,
    listing := [⟨"01_fool.jpg", some v1⟩, ⟨"02_magician.jpg", some v2⟩,
                ⟨"03_priestess.jpg", some v3⟩],
    exportJson := none, existingExport := none }

/-- c4In: the same three files, but enumerated by the directory in a
different order (os.listdir promises no particular order and the code never
sorts). -/
def c4In : BuildInput :=
  { deck := "rws", dirExists := true,
    listing := [⟨"02_magician.jpg", some [2]⟩, ⟨"01_fool.jpg", some [1]⟩,
                ⟨"03_priestess.jpg", some [3]⟩],
    exportJson := none, existingExport := none }

/-- C4 counterexample: a directory containing exactly the three scenario
files whose enumeration comes back in a different order produces the
metadata in that other order, not the claimed one -- the build has no
sorting step, so the claimed output order is not a function of the
directory's contents. -/
theorem C4_counterexample :
    (build_index c4In).metadataFile ≠ some c4Claimed
  ∧ (build_index c4In).metadataFile =
      some [⟨0, "02_magician.jpg", "02 magician"⟩, ⟨1, "01_fool.jpg", "01 fool"⟩,
            ⟨2, "03_priestess.jpg", "03 priestess"⟩] := by
  decide

/-- C4 (amended): when the directory enumeration yields the three scenario
files in ascending name order, the build produces exactly the claimed
metadata, in that order, and a 3-row index holding the three embeddings in
the same order; the output order is the enumeration order of the listing,
which the code does not sort. -/
theorem C4_amended (v1 v2 v3 : Vec) :
    (build_index (c4Listing v1 v2 v3)).metadataFile = some c4Claimed
  ∧ (build_index (c4Listing v1 v2 v3)).indexFile = some [v1, v2, v3] :=
  ⟨rfl, rfl⟩

/-- C4 witness: the amended theorem at three concrete embeddings. -/
theorem C4_witness :
    (build_index (c4Listing [1] [2] [3])).metadataFile = some c4Claimed
  ∧ (build_index (c4Listing [1] [2] [3])).indexFile = some [[1], [2], [3]] :=
  C4_amended [1] [2] [3]

/-! Claim C5. -/

/-- C5: a build that finds zero image files, or embeds zero images
successfully, writes no artifact at all (no index, no metadata, no export);
and whenever a metadata file is written, its length counts exactly the
successfully decoded images. -/
theorem C5_abort_empty (inp : BuildInput) :
    ((image_files inp = [] ∨ ∀ f ∈ image_files inp, f.decoded = none) →
      (build_index inp).indexFile = none ∧ (build_index inp).metadataFile = none
        ∧ (build_index inp).exportFile = none)
  ∧ (∀ md, (build_index inp).metadataFile = some md →
      md.length = ((image_files inp).filter (fun f => f.decoded.isSome)).length) := by
  constructor
  · intro h
    rw [build_index]
    by_cases h1 : inp.dirExists
    · rcases h with hempty | hnone
      · simp [h1, hempty]
      · have hz : (embedLoop 0 (image_files inp)).1 = [] := by
          rw [embedLoop_all_none 0 _ hnone]
        by_cases h2 : image_files inp = [] <;> simp [h1, h2, hz]
    · simp [h1]
  · intro md hmd
    rcases build_index_cases inp with ⟨_, h2, _⟩ | hsucc
    · rw [h2] at hmd
      cases hmd
    · rw [hsucc] at hmd
      simp only [Option.some.injEq] at hmd
      subst hmd
      exact embedLoop_snd_length 0 _

/-- c5In: a build whose single image file fails to decode. -/
def c5In : BuildInput :=
  { deck := "rws", dirExists := true, listing := [⟨"a.jpg", none⟩],
    exportJson := some "out.json", existingExport := none }

/-- C5 witness: a directory whose single image file fails to decode yields
no artifacts. -/
theorem C5_witness :
    (build_index c5In).indexFile = none ∧ (build_index c5In).metadataFile = none
      ∧ (build_index c5In).exportFile = none :=
  (C5_abort_empty c5In).1 (Or.inr (by decide))

/-! Claim C7. -/

/-- c7In: a build pointed at a missing source directory. -/
def c7In : BuildInput :=
  { deck := "rws", dirExists := false, listing := [],
    exportJson := none, existingExport := none }

/-- C7 counterexample: on a missing source directory the build prints the
error message and returns normally -- the process exit status is 0, not
non-zero as claimed. -/
theorem C7_counterexample :
    (build_index c7In).exitCode = 0
  ∧ (build_index c7In).abortMsg =
      some "Error: Image directory data/raw_images/rws not found." := by
  decide

/-- C7 (amended): on a missing-input error the scripts print a message
naming the missing path (the build names the image directory; the query
names the common directory of the two expected files) and write no
artifacts, but both return normally, so the process exits with status 0
rather than a non-zero status. -/
theorem C7_amended (inp : BuildInput) (q : QueryInput)
    (hb : inp.dirExists = false)
    (hq : q.indexExists = false ∨ q.metadataExists = false) :
    ((build_index inp).abortMsg =
        some ("Error: Image directory " ++ image_dir inp.deck ++ " not found.")
      ∧ (build_index inp).exitCode = 0
      ∧ (build_index inp).indexFile = none
      ∧ (build_index inp).metadataFile = none
      ∧ (build_index inp).exportFile = none)
  ∧ ((test_index q).abortMsg =
        some ("Error: Index or metadata not found in data/indices/" ++ q.deck)
      ∧ (test_index q).exitCode = 0
      ∧ (test_index q).results = []) := by
  constructor
  · rw [build_index]
    simp [hb]
  · rw [test_index]
    rcases hq with h | h <;> simp [h]

/-- c7qIn: a query whose index file is missing. -/
def c7qIn : QueryInput :=
  { deck := "rws", indexExists := false, metadataExists := true,
    indexRows := [], metadata := [], queryVec := [1] }

/-- C7 witness: the amended theorem at a concrete missing-directory build
and missing-index query. -/
theorem C7_witness :
    (build_index c7In).abortMsg =
        some ("Error: Image directory " ++ image_dir c7In.deck ++ " not found.")
      ∧ (build_index c7In).exitCode = 0
      ∧ (test_index c7qIn).exitCode = 0 := by
  have h := C7_amended c7In c7qIn rfl (Or.inl rfl)
  exact ⟨h.1.1, h.1.2.1, h.2.2.1⟩

/-! Helper lemmas about the export step. -/

/-- insertCards is the recursion underlying cards_data, with an explicit
accumulator so that induction goes through. -/
def insertCards : List (List Vec × MetaEntry) → List (String × CardEntry) →
    List (String × CardEntry)
  | [], acc => acc
  | p :: rest, acc => insertCards rest (setKey p.2.card_name ⟨embJson p.1, 1⟩ acc)

lemma cards_data_eq_insertCards (embs : List (List Vec)) (md : List MetaEntry) :
    cards_data embs md = insertCards (embs.zip md) [] := by
  rw [cards_data]
  generalize embs.zip md = ps
  suffices h : ∀ acc, ps.foldl (fun acc p => setKey p.2.card_name ⟨embJson p.1, 1⟩ acc) acc
      = insertCards ps acc from h []
  induction ps with
  | nil => intro acc; rfl
  | cons p rest ih =>
    intro acc
    rw [List.foldl_cons, insertCards]
    exact ih _

lemma insertCards_entry_pred (P : CardEntry → Prop)
    (ps : List (List Vec × MetaEntry)) (acc : List (String × CardEntry))
    (hacc : ∀ q ∈ acc, P q.2) (hps : ∀ p ∈ ps, P ⟨embJson p.1, 1⟩) :
    ∀ q ∈ insertCards ps acc, P q.2 := by
  induction ps generalizing acc with
  | nil => exact hacc
  | cons p rest ih =>
    intro q hq
    rw [insertCards] at hq
    refine ih _ ?_ (fun r hr => hps r (List.mem_cons_of_mem _ hr)) q hq
    intro r hr
    rcases mem_setKey r _ _ acc hr with h | h
    · rw [h]
      exact hps p (List.mem_cons_self _ _)
    · exact hacc r h

lemma mem_map_fst_insertCards (x : String) (ps : List (List Vec × MetaEntry))
    (acc : List (String × CardEntry)) :
    x ∈ (insertCards ps acc).map Prod.fst ↔
      x ∈ acc.map Prod.fst ∨ x ∈ ps.map (fun p => p.2.card_name) := by
  induction ps generalizing acc with
  | nil => simp [insertCards]
  | cons p rest ih =>
    rw [insertCards, ih, mem_map_fst_setKey]
    simp only [List.map_cons, List.mem_cons]
    tauto

lemma nodup_map_fst_insertCards (ps : List (List Vec × MetaEntry))
    (acc : List (String × CardEntry)) (h : (acc.map Prod.fst).Nodup) :
    ((insertCards ps acc).map Prod.fst).Nodup := by
  induction ps generalizing acc with
  | nil => exact h
  | cons p rest ih => exact ih _ (nodup_map_fst_setKey _ _ _ h)

lemma lookupKey_insertCards (k : String) (ps : List (List Vec × MetaEntry))
    (acc : List (String × CardEntry)) :
    lookupKey k (insertCards ps acc) =
      ((ps.filter (fun p => p.2.card_name = k)).getLast?).elim (lookupKey k acc)
        (fun p => some ⟨embJson p.1, 1⟩) := by
  induction ps generalizing acc with
  | nil => simp [insertCards]
  | cons p rest ih =>
    rw [insertCards, ih]
    by_cases hc : p.2.card_name = k
    · rw [List.filter_cons_of_pos (by simpa using hc)]
      cases hrest : rest.filter (fun p => decide (p.2.card_name = k)) with
      | nil =>
        simp only [List.getLast?_nil, List.getLast?_singleton, Option.elim_none,
          Option.elim_some]
        rw [hc, lookupKey_setKey_self]
      | cons q qs =>
        rw [List.getLast?_cons_cons]
        cases hql : (q :: qs).getLast? with
        | none => simp at hql
        | some r => rfl
    · rw [List.filter_cons_of_neg (by simpa using hc)]
      rw [lookupKey_setKey_ne _ _ _ _ (fun h => hc h.symm)]

lemma insertCards_length_nil (ps : List (List Vec × MetaEntry)) :
    (insertCards ps []).length = (ps.map (fun p => p.2.card_name)).dedup.length := by
  have h1 : ((insertCards ps []).map Prod.fst).Nodup :=
    nodup_map_fst_insertCards ps [] (by simp)
  have h3 : ((insertCards ps []).map Prod.fst).toFinset =
      (ps.map (fun p => p.2.card_name)).toFinset := by
    ext x
    simp only [List.mem_toFinset]
    rw [mem_map_fst_insertCards]
    simp only [List.map_nil, List.not_mem_nil, false_or]
  calc (insertCards ps []).length
      = ((insertCards ps []).map Prod.fst).length := by rw [List.length_map]
    _ = ((insertCards ps []).map Prod.fst).dedup.length := by
        rw [List.dedup_eq_self.mpr h1]
    _ = ((insertCards ps []).map Prod.fst).toFinset.card := (List.card_toFinset _).symm
    _ = (ps.map (fun p => p.2.card_name)).toFinset.card := by rw [h3]
    _ = (ps.map (fun p => p.2.card_name)).dedup.length := List.card_toFinset _

lemma embedLoop_fst_length (n : Nat) (fs : List SrcFile) :
    (embedLoop n fs).1.length = (embedLoop n fs).2.length := by
  induction fs generalizing n with
  | nil => rfl
  | cons f rest ih =>
    rw [embedLoop]
    cases hf : f.decoded with
    | some v => simp [ih (n + 1)]
    | none => exact ih (n + 1)

/-- exportFile_eq: whenever a run writes an export document, that document is
the merge of the existing document with this deck's freshly built entry. -/
lemma exportFile_eq (inp : BuildInput) (M : ExportDoc)
    (hM : (build_index inp).exportFile = some M) :
    M = mergeExport inp.existingExport inp.deck
      (cards_data (embedLoop 0 (image_files inp)).1 (embedLoop 0 (image_files inp)).2) := by
  rcases build_index_cases inp with ⟨_, _, h3⟩ | hsucc
  · rw [h3] at hM
    cases hM
  · rw [hsucc] at hM
    have hM2 : (if exportOn inp then
        some (mergeExport inp.existingExport inp.deck
          (cards_data (embedLoop 0 (image_files inp)).1 (embedLoop 0 (image_files inp)).2))
      else none) = some M := hM
    split at hM2
    · injection hM2 with h'
      exact h'.symm
    · cases hM2

/-! Claim C6. -/

/-- C6: when a build run writes the export document, this deck's entry under
its canonical id is exactly the freshly built cards mapping, and the entry
stored under every other key is exactly what the existing document (empty
when the export file was missing or malformed) already held for that key. -/
theorem C6_export_merge (inp : BuildInput) (M : ExportDoc)
    (h : (build_index inp).exportFile = some M) :
    lookupKey (deck_id_map inp.deck) M.deckStyles =
      some ⟨cards_data (embedLoop 0 (image_files inp)).1 (embedLoop 0 (image_files inp)).2⟩
  ∧ ∀ k, k ≠ deck_id_map inp.deck →
      lookupKey k M.deckStyles = lookupKey k (inp.existingExport.getD ⟨[]⟩).deckStyles := by
  have hM := exportFile_eq inp M h
  subst hM
  constructor
  · simp only [mergeExport]
    exact lookupKey_setKey_self _ _ _
  · intro k hk
    simp only [mergeExport]
    exact lookupKey_setKey_ne _ _ _ _ hk

/-- c6Marseille: an existing export entry for deck "marseille" with five
cards. -/
def c6Marseille : DeckEntry :=
  ⟨[("card one", ⟨embJson [[1]], 1⟩), ("card two", ⟨embJson [[2]], 1⟩),
    ("card three", ⟨embJson [[3]], 1⟩), ("card four", ⟨embJson [[4]], 1⟩),
    ("card five", ⟨embJson [[5]], 1⟩)]⟩

/-- c6In: a build of deck "rws" with export enabled over an existing export
document holding only deck "marseille". -/
def c6In : BuildInput :=
  { deck := "rws", dirExists := true,
    listing := [⟨"fool.jpg", some [1, 0]⟩],
    exportJson := some "data/vision/prototypes.json",
    existingExport := some ⟨[("marseille", c6Marseille)]⟩ }

/-- C6 witness: the merge scenario of the spec -- after building "rws" with
export enabled the document holds the untouched "marseille" entry and a new
entry under "rws-1909". -/
theorem C6_witness :
    (build_index c6In).exportFile.map (fun M => lookupKey "marseille" M.deckStyles)
      = some (some c6Marseille)
  ∧ (build_index c6In).exportFile.map
      (fun M => (lookupKey (deck_id_map c6In.deck) M.deckStyles).isSome) = some true := by
  have h := C6_export_merge c6In
    (mergeExport c6In.existingExport c6In.deck
      (cards_data (embedLoop 0 (image_files c6In)).1 (embedLoop 0 (image_files c6In)).2)) rfl
  have hE : (build_index c6In).exportFile =
      some (mergeExport c6In.existingExport c6In.deck
        (cards_data (embedLoop 0 (image_files c6In)).1 (embedLoop 0 (image_files c6In)).2)) := rfl
  rw [hE, Option.map_some', Option.map_some']
  constructor
  · rw [h.2 "marseille" (by decide)]
    rfl
  · rw [h.1]
    rfl

/-! Claim C8. -/

/-- c8In: a build with export enabled over a single decodable image. -/
def c8In : BuildInput :=
  { deck := "rws", dirExists := true,
    listing := [⟨"fool.jpg", some [1, 0]⟩],
    exportJson := some "out.json", existingExport := none }

/-- C8 counterexample: the card entry the export writes holds an embedding
field that is a nested (one-row-matrix) list, not a flat list of floats --
`tolist()` of the shape-(1,d) feature array keeps the extra dimension. -/
theorem C8_counterexample :
    (((build_index c8In).exportFile.bind
        (fun M => lookupKey "rws-1909" M.deckStyles)).bind
      (fun de => lookupKey "fool" de.cards)).map
        (fun e => isFlatNumList e.embedding) = some false := rfl

/-- C8 (amended): every card entry the export writes has the shape
`{embedding: [[float, ...]], count: int}` -- the embedding field is the
one-row embedding matrix serialized as a singleton nested list, one inner
list of the vector's coordinates, not a flat list. -/
theorem C8_amended (inp : BuildInput) (M : ExportDoc) (de : DeckEntry)
    (n : String) (e : CardEntry)
    (hM : (build_index inp).exportFile = some M)
    (hde : lookupKey (deck_id_map inp.deck) M.deckStyles = some de)
    (he : lookupKey n de.cards = some e) :
    ∃ row : Vec, e.embedding = JVal.arr [JVal.arr (row.map JVal.num)] := by
  have hM2 := exportFile_eq inp M hM
  subst hM2
  simp only [mergeExport] at hde
  rw [lookupKey_setKey_self] at hde
  injection hde with hde'
  subst hde'
  rw [cards_data_eq_insertCards] at he
  have hmem := lookupKey_mem _ _ _ he
  have hpred := insertCards_entry_pred
    (fun e => ∃ row : Vec, e.embedding = JVal.arr [JVal.arr (row.map JVal.num)])
    ((embedLoop 0 (image_files inp)).1.zip (embedLoop 0 (image_files inp)).2) []
    (by simp) ?_ (n, e) hmem
  · exact hpred
  · intro p hp
    obtain ⟨v, hv⟩ := embedLoop_fst_shape 0 (image_files inp) p.1 (List.of_mem_zip hp).1
    exact ⟨v, by rw [hv]; rfl⟩

/-- C8 witness: the amended theorem at the concrete one-image build; the
exported entry for "fool" is the nested singleton list of its embedding. -/
theorem C8_witness :
    ∃ row : Vec,
      (⟨embJson [[1, 0]], 1⟩ : CardEntry).embedding =
        JVal.arr [JVal.arr (row.map JVal.num)] :=
  C8_amended c8In
    (mergeExport c8In.existingExport c8In.deck
      (cards_data (embedLoop 0 (image_files c8In)).1 (embedLoop 0 (image_files c8In)).2))
    ⟨cards_data (embedLoop 0 (image_files c8In)).1 (embedLoop 0 (image_files c8In)).2⟩
    "fool" ⟨embJson [[1, 0]], 1⟩ rfl rfl rfl

/-! Claim C10. -/

/-- C10: the exported cards are keyed by derived card name with dict
overwrite semantics -- the entry stored under a name is built from the last
indexed image deriving that name, the number of exported cards is the number
of distinct derived card names, and every exported count field is exactly
1. -/
theorem C10_export_cards (inp : BuildInput) (M : ExportDoc) (de : DeckEntry)
    (hM : (build_index inp).exportFile = some M)
    (hde : lookupKey (deck_id_map inp.deck) M.deckStyles = some de) :
    (∀ q ∈ de.cards, q.2.count = 1)
  ∧ de.cards.length =
      ((embedLoop 0 (image_files inp)).2.map (fun m => m.card_name)).dedup.length
  ∧ ∀ k, lookupKey k de.cards =
      ((((embedLoop 0 (image_files inp)).1.zip (embedLoop 0 (image_files inp)).2).filter
          (fun p => p.2.card_name = k)).getLast?).map
        (fun p => (⟨embJson p.1, 1⟩ : CardEntry)) := by
  have hM2 := exportFile_eq inp M hM
  subst hM2
  simp only [mergeExport] at hde
  rw [lookupKey_setKey_self] at hde
  injection hde with hde'
  subst hde'
  have hnames : (((embedLoop 0 (image_files inp)).1.zip
      (embedLoop 0 (image_files inp)).2).map (fun p => p.2.card_name))
      = (embedLoop 0 (image_files inp)).2.map (fun m => m.card_name) := by
    rw [show (fun (p : List Vec × MetaEntry) => p.2.card_name)
        = (fun m : MetaEntry => m.card_name) ∘ Prod.snd from rfl]
    rw [← List.map_map]
    rw [List.map_snd_zip _ _ (le_of_eq (embedLoop_fst_length 0 _).symm)]
  refine ⟨?_, ?_, ?_⟩
  · intro q hq
    rw [cards_data_eq_insertCards] at hq
    exact insertCards_entry_pred (fun e => e.count = 1) _ [] (by simp)
      (fun p _ => rfl) q hq
  · rw [cards_data_eq_insertCards]
    rw [show (DeckEntry.mk (insertCards ((embedLoop 0 (image_files inp)).1.zip
        (embedLoop 0 (image_files inp)).2) [])).cards
      = insertCards ((embedLoop 0 (image_files inp)).1.zip
        (embedLoop 0 (image_files inp)).2) [] from rfl]
    rw [insertCards_length_nil, hnames]
  · intro k
    rw [cards_data_eq_insertCards]
    rw [show (DeckEntry.mk (insertCards ((embedLoop 0 (image_files inp)).1.zip
        (embedLoop 0 (image_files inp)).2) [])).cards
      = insertCards ((embedLoop 0 (image_files inp)).1.zip
        (embedLoop 0 (image_files inp)).2) [] from rfl]
    rw [lookupKey_insertCards]
    cases (((embedLoop 0 (image_files inp)).1.zip
        (embedLoop 0 (image_files inp)).2).filter
          (fun p => p.2.card_name = k)).getLast? with
    | none => rfl
    | some p => rfl

/-- c10In: a build with export enabled whose two images derive the same card
name "fool". -/
def c10In : BuildInput :=
  { deck := "rws", dirExists := true,
    listing := [⟨"fool.jpg", some [1, 0]⟩, ⟨"fool.png", some [0, 1]⟩],
    exportJson := some "out.json", existingExport := none }

/-- C10 witness: two indexed images with the same derived name yield one
exported card (count of distinct names), fewer than the two indexed
images. -/
theorem C10_witness :
    (cards_data (embedLoop 0 (image_files c10In)).1 (embedLoop 0 (image_files c10In)).2).length
      = ((embedLoop 0 (image_files c10In)).2.map (fun m => m.card_name)).dedup.length
  ∧ (embedLoop 0 (image_files c10In)).2.length = 2
  ∧ ((embedLoop 0 (image_files c10In)).2.map (fun m => m.card_name)).dedup.length = 1 := by
  refine ⟨?_, by decide, by decide⟩
  have h := C10_export_cards c10In
    (mergeExport c10In.existingExport c10In.deck
      (cards_data (embedLoop 0 (image_files c10In)).1 (embedLoop 0 (image_files c10In)).2))
    ⟨cards_data (embedLoop 0 (image_files c10In)).1 (embedLoop 0 (image_files c10In)).2⟩
    rfl rfl
  exact h.2.1

/-! Helper lemmas about the search model. -/

lemma dot_cons (a b : ℚ) (u v : Vec) : dot (a :: u) (b :: v) = a * b + dot u v := by
  simp [dot]

lemma dot_self_nonneg (v : Vec) : 0 ≤ dot v v := by
  induction v with
  | nil => simp [dot]
  | cons a t ih =>
    rw [dot_cons]
    nlinarith [mul_self_nonneg a]

lemma dot_sub_self (u v : Vec) (h : u.length = v.length) :
    dot (List.zipWith (fun a b => a - b) u v) (List.zipWith (fun a b => a - b) u v)
      = dot u u - 2 * dot u v + dot v v := by
  induction u generalizing v with
  | nil =>
    cases v with
    | nil => simp [dot]
    | cons b s => simp at h
  | cons a t ih =>
    cases v with
    | nil => simp at h
    | cons b s =>
      rw [List.zipWith_cons_cons, dot_cons, dot_cons, dot_cons, dot_cons,
        ih s (by simpa using h)]
      ring

lemma dot_le_one (u v : Vec) (h : u.length = v.length)
    (hu : dot u u = 1) (hv : dot v v = 1) : dot u v ≤ 1 := by
  have h0 := dot_self_nonneg (List.zipWith (fun a b => a - b) u v)
  rw [dot_sub_self u v h, hu, hv] at h0
  linarith

lemma eq_of_dot_sub_self_zero (u v : Vec) (h : u.length = v.length)
    (h0 : dot (List.zipWith (fun a b => a - b) u v)
      (List.zipWith (fun a b => a - b) u v) = 0) : u = v := by
  induction u generalizing v with
  | nil =>
    cases v with
    | nil => rfl
    | cons b s => simp at h
  | cons a t ih =>
    cases v with
    | nil => simp at h
    | cons b s =>
      rw [List.zipWith_cons_cons, dot_cons] at h0
      have hrest := dot_self_nonneg (List.zipWith (fun a b => a - b) t s)
      have hsqn := mul_self_nonneg (a - b)
      have hsq : (a - b) * (a - b) = 0 := by linarith
      have hab : a = b := by
        have := mul_self_eq_zero.mp hsq
        linarith
      have h0' : dot (List.zipWith (fun a b => a - b) t s)
          (List.zipWith (fun a b => a - b) t s) = 0 := by linarith
      rw [hab, ih s (by simpa using h) h0']

lemma eq_of_dot_eq_one (u v : Vec) (h : u.length = v.length)
    (hu : dot u u = 1) (hv : dot v v = 1) (h1 : dot u v = 1) : u = v := by
  apply eq_of_dot_sub_self_zero u v h
  rw [dot_sub_self u v h, hu, hv, h1]
  ring

lemma scoreRows_length (q : Vec) (n : Nat) (rows : List Vec) :
    (scoreRows q n rows).length = rows.length := by
  induction rows generalizing n with
  | nil => rfl
  | cons r rs ih => rw [scoreRows]; simp [ih (n + 1)]

lemma mem_scoreRows (q : Vec) (n : Nat) (rows : List Vec) (pi : Nat) (ps : ℚ) :
    (pi, ps) ∈ scoreRows q n rows ↔
      ∃ t r, rows.get? t = some r ∧ pi = n + t ∧ ps = dot r q := by
  induction rows generalizing n with
  | nil => simp [scoreRows]
  | cons r0 rs ih =>
    rw [scoreRows]
    simp only [List.mem_cons, ih, Prod.mk.injEq]
    constructor
    · rintro (⟨h1, h2⟩ | ⟨t, r, h1, h2, h3⟩)
      · exact ⟨0, r0, rfl, by omega, h2⟩
      · exact ⟨t + 1, r, by simpa using h1, by omega, h3⟩
    · rintro ⟨t, r, h1, h2, h3⟩
      cases t with
      | zero =>
        left
        refine ⟨by omega, ?_⟩
        rw [h3]
        injection h1 with h1'
        rw [h1']
      | succ t' =>
        right
        exact ⟨t', r, by simpa using h1, by omega, h3⟩

lemma insertDesc_length (x : Nat × ℚ) (l : List (Nat × ℚ)) :
    (insertDesc x l).length = l.length + 1 := by
  induction l with
  | nil => rfl
  | cons z zs ih =>
    rw [insertDesc]
    by_cases hc : z.2 ≤ x.2
    · rw [if_pos hc]; rfl
    · rw [if_neg hc]; simp [ih]

lemma sortDesc_length (l : List (Nat × ℚ)) : (sortDesc l).length = l.length := by
  induction l with
  | nil => rfl
  | cons x xs ih => rw [sortDesc, insertDesc_length, ih]; rfl

lemma mem_insertDesc (x y : Nat × ℚ) (l : List (Nat × ℚ)) :
    y ∈ insertDesc x l ↔ y = x ∨ y ∈ l := by
  induction l with
  | nil => simp [insertDesc]
  | cons z zs ih =>
    rw [insertDesc]
    by_cases hc : z.2 ≤ x.2
    · rw [if_pos hc]
      simp only [List.mem_cons]
    · rw [if_neg hc]
      simp only [List.mem_cons, ih]
      tauto

lemma mem_sortDesc (y : Nat × ℚ) (l : List (Nat × ℚ)) : y ∈ sortDesc l ↔ y ∈ l := by
  induction l with
  | nil => simp [sortDesc]
  | cons x xs ih =>
    rw [sortDesc, mem_insertDesc, ih]
    simp [List.mem_cons]

lemma pairwise_insertDesc (x : Nat × ℚ) (l : List (Nat × ℚ))
    (h : l.Pairwise (fun a b => b.2 ≤ a.2)) :
    (insertDesc x l).Pairwise (fun a b => b.2 ≤ a.2) := by
  induction l with
  | nil => simp [insertDesc]
  | cons z zs ih =>
    rw [List.pairwise_cons] at h
    rw [insertDesc]
    by_cases hc : z.2 ≤ x.2
    · rw [if_pos hc, List.pairwise_cons]
      constructor
      · intro b hb
        rcases List.mem_cons.mp hb with hb | hb
        · rw [hb]; exact hc
        · exact le_trans (h.1 b hb) hc
      · rw [List.pairwise_cons]
        exact h
    · rw [if_neg hc, List.pairwise_cons]
      constructor
      · intro b hb
        rcases (mem_insertDesc x b zs).mp hb with hb | hb
        · rw [hb]
          exact le_of_lt (lt_of_not_le hc)
        · exact h.1 b hb
      · exact ih h.2

lemma pairwise_sortDesc (l : List (Nat × ℚ)) :
    (sortDesc l).Pairwise (fun a b => b.2 ≤ a.2) := by
  induction l with
  | nil => simp [sortDesc]
  | cons x xs ih =>
    rw [sortDesc]
    exact pairwise_insertDesc x _ ih

lemma sortDesc_head_max (l : List (Nat × ℚ)) (x : Nat × ℚ) (rest : List (Nat × ℚ))
    (hE : sortDesc l = x :: rest) : ∀ a ∈ l, a.2 ≤ x.2 := by
  intro a ha
  have hmem : a ∈ sortDesc l := (mem_sortDesc a l).mpr ha
  rw [hE] at hmem
  rcases List.mem_cons.mp hmem with h | h
  · rw [h]
  · have hp := pairwise_sortDesc l
    rw [hE, List.pairwise_cons] at hp
    exact hp.1 a h

lemma searchIP_length (rows : List Vec) (q : Vec) (k : Nat) :
    (searchIP rows q k).length = k := by
  rw [searchIP]
  rw [List.length_append, List.length_map, List.length_take, sortDesc_length,
    scoreRows_length, List.length_replicate]
  omega

lemma searchIP_pad (rows : List Vec) (q : Vec) (k i : Nat)
    (h1 : rows.length ≤ i) (h2 : i < k) :
    (searchIP rows q k).get? i = some ((-1 : ℤ), faissNegInf) := by
  rw [searchIP]
  have hlen : (((sortDesc (scoreRows q 0 rows)).take k).map
      (fun p => ((p.1 : ℤ), p.2))).length = rows.length := by
    rw [List.length_map, List.length_take, sortDesc_length, scoreRows_length]
    omega
  rw [List.get?_append_right (by omega)]
  rw [hlen, List.get?_eq_getElem?, List.getElem?_replicate]
  rw [if_pos (by omega)]

lemma renderLoop_length (md : List MetaEntry) (n : Nat) (res : List (ℤ × ℚ)) :
    (renderLoop md n res).length = res.length := by
  induction res generalizing n with
  | nil => rfl
  | cons p rest ih =>
    obtain ⟨idx, s⟩ := p
    rw [renderLoop]
    simp [ih (n + 1)]

lemma renderLoop_get? (md : List MetaEntry) (n i : Nat) (res : List (ℤ × ℚ)) :
    (renderLoop md n res).get? i =
      (res.get? i).map (fun p => renderLine md (n + i + 1) p.1 p.2) := by
  induction res generalizing n i with
  | nil => simp [renderLoop]
  | cons p rest ih =>
    obtain ⟨idx, s⟩ := p
    cases i with
    | zero => simp [renderLoop]
    | succ i' =>
      rw [renderLoop]
      simp only [List.get?_cons_succ]
      rw [ih (n + 1) i']
      have harith : n + 1 + i' + 1 = n + (i' + 1) + 1 := by omega
      rw [harith]

lemma get?_length_sub_one {α : Type} (l : List α) : l.get? (l.length - 1) = l.getLast? := by
  cases l with
  | nil => rfl
  | cons a t =>
    rw [List.getLast?_eq_getElem?]
    simp [List.get?_eq_getElem?]

/-! Claim C2. -/

/-- c2In: a query against a one-vector index with matching one-entry
metadata, so the fixed k = 5 exceeds the total count. -/
def c2In : QueryInput :=
  { deck := "rws", indexExists := true, metadataExists := true,
    indexRows := [[1, 0]], metadata := [⟨0, "01_fool.jpg", "01 fool"⟩],
    queryVec := [1, 0] }

/-- C2 counterexample: with k = 5 over a 1-vector index the query emits 5
result rows, not 1 -- the four extra rows are the search's -1 padding,
rendered from the last metadata entry. -/
theorem C2_counterexample :
    c2In.indexRows.length = 1
  ∧ (test_index c2In).results =
      [some (RLine.card 1 "01 fool" 1 "01_fool.jpg"),
       some (RLine.card 2 "01 fool" faissNegInf "01_fool.jpg"),
       some (RLine.card 3 "01 fool" faissNegInf "01_fool.jpg"),
       some (RLine.card 4 "01 fool" faissNegInf "01_fool.jpg"),
       some (RLine.card 5 "01 fool" faissNegInf "01_fool.jpg")] := by
  constructor
  · rfl
  · norm_num [c2In, test_index, searchIP, scoreRows, sortDesc, insertDesc,
      renderLoop, renderLine, pyGet, dot, faissNegInf, List.replicate]

/-- C2 (amended): when k = 5 exceeds the index's total vector count the
query does not error, but it does not truncate to total either: it always
emits exactly 5 result rows, and every row past the total carries the
search's -1 padding rendered -- through the missing lower-bound check and
Python negative indexing -- as a card line for the last metadata entry. -/
theorem C2_amended (inp : QueryInput)
    (h1 : inp.indexExists = true) (h2 : inp.metadataExists = true)
    (h3 : inp.indexRows.length < 5) (h4 : inp.metadata ≠ []) :
    (test_index inp).results.length = 5
  ∧ ∀ i, inp.indexRows.length ≤ i → i < 5 →
      ∃ last, inp.metadata.getLast? = some last ∧
        (test_index inp).results.get? i =
          some (some (RLine.card (i + 1) last.card_name faissNegInf last.filename)) := by
  have hres : (test_index inp).results
      = renderLoop inp.metadata 0 (searchIP inp.indexRows inp.queryVec 5) := by
    rw [test_index, h1, h2]
    rfl
  rw [hres]
  constructor
  · rw [renderLoop_length, searchIP_length]
  · intro i hi1 hi2
    have hlen0 : 0 < inp.metadata.length := List.length_pos.mpr h4
    cases hlast : inp.metadata.getLast? with
    | none =>
      rw [List.getLast?_eq_none_iff] at hlast
      exact absurd hlast h4
    | some last =>
      refine ⟨last, rfl, ?_⟩
      rw [renderLoop_get?, searchIP_pad inp.indexRows inp.queryVec 5 i hi1 hi2]
      have hpy : pyGet inp.metadata (-1) = some last := by
        rw [pyGet, if_neg (by omega), if_pos (by simpa using hlen0)]
        have ht : ((-(-1 : ℤ)).toNat) = 1 := rfl
        rw [ht, get?_length_sub_one, hlast]
      have hcast : (-1 : ℤ) < (inp.metadata.length : ℤ) := by omega
      have hrl : renderLine inp.metadata (0 + i + 1) (-1) faissNegInf
          = some (RLine.card (i + 1) last.card_name faissNegInf last.filename) := by
        rw [renderLine, if_pos hcast, hpy, Nat.zero_add]
      rw [Option.map_some', hrl]

/-- C2 witness: the amended theorem at the concrete 1-vector query. -/
theorem C2_witness : (test_index c2In).results.length = 5 :=
  (C2_amended c2In rfl rfl (by decide) (by decide)).1

/-! Claim C3. -/

/-- c3In: a query whose metadata file has two entries while its index has a
single vector (desynchronized artifacts), so the padded positions -1 slip
past the upper-bound-only check. -/
def c3In : QueryInput :=
  { deck := "rws", indexExists := true, metadataExists := true,
    indexRows := [[1, 0]],
    metadata := [⟨0, "01_fool.jpg", "01 fool"⟩, ⟨1, "02_two.jpg", "02 two"⟩],
    queryVec := [1, 0] }

/-- C3 counterexample: the search's rank-2 position is -1 -- outside
[0, length) -- yet the query renders it as a card line for the final
metadata entry (Python's negative indexing), not as "unknown index". -/
theorem C3_counterexample :
    (searchIP c3In.indexRows c3In.queryVec 5).get? 1 = some (-1, faissNegInf)
  ∧ (test_index c3In).results =
      [some (RLine.card 1 "01 fool" 1 "01_fool.jpg"),
       some (RLine.card 2 "02 two" faissNegInf "02_two.jpg"),
       some (RLine.card 3 "02 two" faissNegInf "02_two.jpg"),
       some (RLine.card 4 "02 two" faissNegInf "02_two.jpg"),
       some (RLine.card 5 "02 two" faissNegInf "02_two.jpg")] := by
  constructor
  · norm_num [c3In, searchIP, scoreRows, sortDesc, insertDesc, dot,
      List.replicate, List.get?]
  · norm_num [c3In, test_index, searchIP, scoreRows, sortDesc, insertDesc,
      renderLoop, renderLine, pyGet, dot, faissNegInf, List.replicate]

/-- C3 (amended): the per-result guard checks only the upper bound: a
position at or above the metadata length is reported as "unknown index",
but a negative position passes the check and is looked up with Python
negative indexing, returning the entry that distance from the end of the
list -- the wrong entry, though never an out-of-bounds fault while the
offset stays within the list. -/
theorem C3_amended (md : List MetaEntry) (rank : Nat) (idx : ℤ) (score : ℚ) :
    ((md.length : ℤ) ≤ idx →
      renderLine md rank idx score = some (RLine.unknown rank idx))
  ∧ (idx < 0 → (-idx).toNat ≤ md.length →
      ∃ m, md.get? (md.length - (-idx).toNat) = some m ∧
        renderLine md rank idx score =
          some (RLine.card rank m.card_name score m.filename)) := by
  constructor
  · intro h
    rw [renderLine, if_neg (by omega)]
  · intro hneg hoff
    have h3 : md.length - (-idx).toNat < md.length := by omega
    refine ⟨md.get ⟨md.length - (-idx).toNat, h3⟩, List.get?_eq_get h3, ?_⟩
    rw [renderLine, if_pos (by omega), pyGet, if_neg (by omega), if_pos hoff,
      List.get?_eq_get h3]

/-- C3 witness: the amended theorem at a one-entry metadata list and
position -1: the lookup silently returns the final entry as a card line. -/
theorem C3_witness :
    renderLine [⟨0, "a.jpg", "a"⟩] 4 (-1) 0 = some (RLine.card 4 "a" 0 "a.jpg") := by
  obtain ⟨m, hm, hr⟩ :=
    (C3_amended [⟨0, "a.jpg", "a"⟩] 4 (-1) 0).2 (by decide) (by decide)
  have hm' : m = ⟨0, "a.jpg", "a"⟩ := by
    simp only [List.get?] at hm
    injection hm with hm2
    exact hm2.symm
  rw [hm'] at hr
  exact hr

/-! Claim C9. -/

/-- c9Rows: an index holding the same unit vector at rows 0 and 1 (two
identical images embed identically). -/
def c9Rows : List Vec := [[1, 0], [1, 0]]

/-- C9 counterexample: the unit vector [1,0] was inserted at row 1, but
searching with it returns row 0 as the rank-1 result (the duplicate at the
earlier row wins the tie), so the inserted vector's own row is not the
rank-1 result. -/
theorem C9_counterexample :
    c9Rows.get? 1 = some [1, 0]
  ∧ (searchIP c9Rows [1, 0] 5).get? 0 = some (0, 1)
  ∧ (0 : ℤ) ≠ (1 : ℤ) := by
  refine ⟨rfl, ?_, by decide⟩
  norm_num [c9Rows, searchIP, scoreRows, sortDesc, insertDesc, dot,
    List.replicate, List.get?]

/-- C9 (amended): searching an index of unit vectors with a stored unit
vector q returns as rank-1 a row whose score is exactly 1 (in the
exact-arithmetic model) and whose stored vector equals q; when q occupies a
unique row, that rank-1 row is q's own. -/
theorem C9_amended (rows : List Vec) (q : Vec) (j : Nat)
    (hlen : ∀ r ∈ rows, r.length = q.length)
    (hunit : ∀ r ∈ rows, dot r r = 1)
    (hq : rows.get? j = some q) :
    ∃ i : Nat, ∃ rest, searchIP rows q 5 = ((i : ℤ), 1) :: rest
      ∧ rows.get? i = some q
      ∧ ((∀ j', rows.get? j' = some q → j' = j) → i = j) := by
  have hqmem : q ∈ rows := List.get?_mem hq
  have hqq : dot q q = 1 := hunit q hqmem
  have hL : (j, (1 : ℚ)) ∈ scoreRows q 0 rows :=
    (mem_scoreRows q 0 rows j 1).mpr ⟨j, q, hq, by omega, hqq.symm⟩
  cases hS : sortDesc (scoreRows q 0 rows) with
  | nil =>
    have := (mem_sortDesc (j, (1 : ℚ)) (scoreRows q 0 rows)).mpr hL
    rw [hS] at this
    simp at this
  | cons x rest' =>
    have hmax := sortDesc_head_max _ x rest' hS (j, 1) hL
    have hxmem : x ∈ scoreRows q 0 rows := by
      rw [← mem_sortDesc, hS]
      exact List.mem_cons_self _ _
    obtain ⟨t, r, hrt, hx1, hx2⟩ :=
      (mem_scoreRows q 0 rows x.1 x.2).mp (by rwa [show (x.1, x.2) = x from rfl])
    have hrmem : r ∈ rows := List.get?_mem hrt
    have hle : dot r q ≤ 1 := dot_le_one r q (hlen r hrmem) (hunit r hrmem) hqq
    have hx2' : x.2 = 1 := le_antisymm (by rw [hx2]; exact hle) hmax
    have hrq : r = q := eq_of_dot_eq_one r q (hlen r hrmem) (hunit r hrmem) hqq
      (by rw [← hx2, hx2'])
    refine ⟨t, (rest'.map (fun p => ((p.1 : ℤ), p.2))).take 4
        ++ List.replicate (5 - rows.length) ((-1 : ℤ), faissNegInf), ?_, ?_, ?_⟩
    · rw [searchIP, hS]
      rw [show (x :: rest').take 5 = x :: rest'.take 4 from rfl,
        List.map_cons, List.cons_append]
      have hx : x = (t, 1) := by
        rw [← hx2']
        rw [show x = (x.1, x.2) from rfl, hx1]
        simp
      rw [hx, List.map_take]
    · rw [← hrq]
      exact hrt
    · intro hu
      exact hu t (by rw [← hrq]; exact hrt)

/-- C9 witness: the amended theorem at a two-vector index holding [1,0] and
[0,1], queried with [0,1], which occupies the unique row 1: the rank-1
result is row 1 with score exactly 1. -/
theorem C9_witness :
    (searchIP [[(1 : ℚ), 0], [0, 1]] [0, 1] 5).get? 0 = some (1, 1) := by
  obtain ⟨i, rest, hsp, hsome, huniq⟩ := C9_amended [[(1 : ℚ), 0], [0, 1]] [0, 1] 1
    (by intro r hr; fin_cases hr <;> rfl)
    (by intro r hr; fin_cases hr <;> simp [dot])
    rfl
  have hi : i = 1 := by
    apply huniq
    intro j' hj'
    cases j' with
    | zero =>
      exfalso
      simp only [List.get?, Option.some.injEq, List.cons.injEq] at hj'
      norm_num at hj'
    | succ j'' =>
      cases j'' with
      | zero => rfl
      | succ m => simp [List.get?] at hj'
  rw [hsp, hi]
  rfl

end Tarot
